import Mathlib

/-!
Verification of the avail-light application client (`src/app_client.rs`).

The data-recovery pipeline of the light client is embedded shallowly: pure
functions of the source are translated directly; network retrieval, commitment
verification, column reconstruction and extrinsic decoding are external
collaborators and appear as oracle function parameters.  Machine integers of
the source (`u16`, `u32`, `usize`) are modelled as `Nat`; the indices involved
never overflow in the modelled claims.
-/

namespace AppClient

/-- `CHUNK_SIZE` from the external `kate_recovery::config` module: the size in
bytes of one matrix chunk. -/
def CHUNK_SIZE : Nat := 32

/-- `EXTENSION_FACTOR` from the external `kate_recovery::config` module: the
row extension factor of the erasure-coded matrix. -/
def EXTENSION_FACTOR : Nat := 2

/-- Byte strings are lists of bytes (modelled as `Nat`). -/
abbrev Bytes := List Nat

/-- `kate_recovery::matrix::Position`: a (row, column) coordinate of the
extended matrix. -/
structure Position where
  row : Nat
  col : Nat
deriving DecidableEq, Repr

/-- Modelled from the spec: `kate_recovery::data::Cell` — a retrieved chunk at
a `Position` plus its correctness proof, as returned by a retrieval source;
`content` holds the proof followed by the chunk bytes. -/
structure Cell where
  position : Position
  content : Bytes
deriving DecidableEq, Repr

/-- `kate_recovery::data::DataCell`: a `Position` plus a chunk of data that has
passed verification or reconstruction. -/
structure DataCell where
  position : Position
  data : Bytes
deriving DecidableEq, Repr

/-- Modelled from the spec: the size of the correctness proof stored in front
of the chunk inside a `Cell`'s content. -/
def PROOF_BYTES : Nat := 48

/-- Modelled from the spec: conversion `Cell → DataCell` (`cell.into()` in
`reconstruct_rows_from_dht`) — keeps the position and strips the proof from
the content, leaving the data chunk. -/
def cellToDataCell (cell : Cell) : DataCell :=
  ⟨cell.position, cell.content.drop PROOF_BYTES⟩

/-- `new_data_cell` (src/app_client.rs:40-48): builds a `DataCell` from a row
index, a column index and chunk bytes.  The source's fallible integer
conversions (`usize → u32`/`u16`) cannot fail on `Nat`. -/
def new_data_cell (row col : Nat) (data : Bytes) : DataCell :=
  ⟨⟨row, col⟩, data⟩

/-- `chunks_exact` of the Rust slice library: splits a byte string into
consecutive chunks of exactly `n` bytes, discarding the shorter remainder. -/
def chunksExact : Nat → Bytes → List Bytes
  | 0, _ => []
  | n + 1, l =>
    if h : l.length < n + 1 then []
    else l.take (n + 1) :: chunksExact (n + 1) (l.drop (n + 1))
termination_by _ l => l.length
decreasing_by
  simp only [List.length_drop]
  omega

/-- `data_cells_from_row` (src/app_client.rs:50-56): slices a row into
`CHUNK_SIZE`-byte chunks and enumerates them as `DataCell`s with consecutive
column indices. -/
def data_cells_from_row (row : Nat) (row_data : Bytes) : List DataCell :=
  (chunksExact CHUNK_SIZE row_data).enum.map (fun p => new_data_cell row p.1 p.2)

/-- `data_cells_from_rows` (src/app_client.rs:58-68): enumerates rows, drops
the absent (`None`) ones, materializes each present row into `DataCell`s and
flattens the result. -/
def data_cells_from_rows (rows : List (Option Bytes)) : List DataCell :=
  ((rows.enum.filterMap (fun p => p.2.map (fun data => (p.1, data)))).map
    (fun p => data_cells_from_row p.1 p.2)).flatten

/-- `data_cell` (src/app_client.rs:70-81): looks up the chunk for `position` in
the reconstructed-column map (column index, then row index divided by the
extension factor, since a reconstructed column is not extended); a failed
lookup is the hard error "Data cell not found". -/
def data_cell (position : Position) (reconstructed : Nat → Option (List Bytes)) :
    Except String DataCell :=
  match (reconstructed position.col).bind
      (fun column => column[position.row / EXTENSION_FACTOR]?) with
  | some data => .ok ⟨position, data⟩
  | none => .error "Data cell not found"

/-- `fetch_verified` (src/app_client.rs:83-103), with the external calls as
oracles: `fetchCells` is `network_client.fetch_cells_from_dht` and
`verifyCells` is `proof::verify`.  Fetches the positions, verifies the fetched
cells, keeps only the cells whose position verified, and appends the
unverified positions to the unfetched ones. -/
def fetch_verified (fetchCells : List Position → List Cell × List Position)
    (verifyCells : List Cell → Except String (List Position × List Position))
    (positions : List Position) : Except String (List Cell × List Position) :=
  let fetched := (fetchCells positions).1
  let unfetched := (fetchCells positions).2
  match verifyCells fetched with
  | .error e => .error ("Failed to verify fetched cells: " ++ e)
  | .ok (verified, unverified) =>
    .ok (fetched.filter (fun cell => verified.contains cell.position),
      unfetched ++ unverified)

/-- Modelled from the spec: `Dimensions::extended_rows_positions` of the
external `kate_recovery::matrix` module — expands the requested extended-row
indices into their full set of extended-matrix positions (every column of each
requested row). -/
def extended_rows_positions (cols : Nat) (rows : List Nat) : List Position :=
  rows.flatMap (fun row => (List.range cols).map (fun col => ⟨row, col⟩))

/-- The comparison used by `data_cells.sort_by` in `reconstruct_rows_from_dht`
(src/app_client.rs:176-177): lexicographic order on `(row, col)`. -/
def cellLe (a b : DataCell) : Prop :=
  a.position.row < b.position.row ∨
    (a.position.row = b.position.row ∧ a.position.col ≤ b.position.col)

instance : DecidableRel cellLe := fun a b => by
  unfold cellLe; exact inferInstance

instance : IsTotal DataCell cellLe :=
  ⟨by intro a b; unfold cellLe; omega⟩

instance : IsTrans DataCell cellLe :=
  ⟨by intro a b c; unfold cellLe; omega⟩

/-- The stable sort of `data_cells` by `(row, col)` (src/app_client.rs:176-177). -/
def sortCells (cells : List DataCell) : List DataCell :=
  cells.insertionSort cellLe

/-- The bytes assembled for one row (src/app_client.rs:182-186): concatenation
of the data of all cells of that row, in the order of the (sorted) cell list. -/
def rowData (cells : List DataCell) (row : Nat) : Bytes :=
  (cells.filter (fun cell => cell.position.row == row)).flatMap (fun cell => cell.data)

/-- One step of the final row assembly of `reconstruct_rows_from_dht`
(src/app_client.rs:181-193): the assembled bytes must have exactly
`cols * CHUNK_SIZE` bytes, otherwise the row-size error is returned. -/
def assembleRow (cols : Nat) (cells : List DataCell) (row : Nat) :
    Except String (Nat × Bytes) :=
  if (rowData cells row).length ≠ cols * CHUNK_SIZE then
    .error "Row size is not valid after reconstruction"
  else
    .ok (row, rowData cells row)

/-- The tail of `reconstruct_rows_from_dht` (src/app_client.rs:172-194): merge
the fetched and reconstructed data cells, sort them by `(row, col)`, and
assemble each requested missing row. -/
def assembleRows (cols : Nat) (data_cells : List DataCell) (missing_rows : List Nat) :
    Except String (List (Nat × Bytes)) :=
  missing_rows.mapM (assembleRow cols (sortCells data_cells))

/-- The reconstruction of the missing cells (src/app_client.rs:161-164):
each unfetched position is looked up in the reconstructed-column map. -/
def reconstructCells (unfetched : List Position)
    (reconstructed : Nat → Option (List Bytes)) : Except String (List DataCell) :=
  unfetched.mapM (fun position => data_cell position reconstructed)

/-- `reconstruct_rows_from_dht` (src/app_client.rs:105-195), with the external
calls as oracles: `fetchCells`/`verifyCells` feed `fetch_verified`,
`columnsPositions` is `kate_recovery::com::columns_positions dimensions · 0.66`
and `reconstructColumns` is `kate_recovery::com::reconstruct_columns`.  The
second component of the result counts the retrieval rounds issued (each round
is one `fetch_cells_from_dht` call inside `fetch_verified`). -/
def reconstruct_rows_from_dht (cols : Nat)
    (fetchCells : List Position → List Cell × List Position)
    (verifyCells : List Cell → Except String (List Position × List Position))
    (columnsPositions : List Position → List Position)
    (reconstructColumns : List Cell → Except String (Nat → Option (List Bytes)))
    (missing_rows : List Nat) : Except String (List (Nat × Bytes)) × Nat :=
  let missing_cells := extended_rows_positions cols missing_rows
  if missing_cells.isEmpty then (.ok [], 0)
  else
    match fetch_verified fetchCells verifyCells missing_cells with
    | .error e => (.error e, 1)
    | .ok (fetched, unfetched) =>
      match fetch_verified fetchCells verifyCells (columnsPositions unfetched) with
      | .error e => (.error e, 2)
      | .ok (missing_fetched, _) =>
        match reconstructColumns missing_fetched with
        | .error e => (.error e, 2)
        | .ok reconstructed =>
          match reconstructCells unfetched reconstructed with
          | .error e => (.error e, 2)
          | .ok reconstructed_cells =>
            (assembleRows cols (fetched.map cellToDataCell ++ reconstructed_cells)
              missing_rows, 2)

/-- `crate::types::AppClientConfig`: the configuration fields `process_block`
reads — the fallback-source toggle and the missing-cell threshold. -/
structure AppClientConfig where
  disable_rpc : Bool
  threshold : Nat
deriving DecidableEq, Repr

/-- The exclusion of already-verified rows from the missing set
(src/app_client.rs:250): `missing_rows.retain(|row| !dht_verified_rows.contains(row))`. -/
def retainMissing (missing_rows dht_verified_rows : List Nat) : List Nat :=
  missing_rows.filter (fun row => !(dht_verified_rows.contains row))

/-- One slot of the row selection (src/app_client.rs:268-271): prefer the DHT
row, fall back to the RPC row, and keep the value only when the row index is
in the verified set. -/
def selectRow (verified_rows : List Nat) (row_index : Nat)
    (dht_row rpc_row : Option Bytes) : Option Bytes :=
  (dht_row.or rpc_row).bind
    (fun row => if verified_rows.contains row_index then some row else none)

/-- The row selection of `process_block` (src/app_client.rs:264-272): zip the
DHT rows with the RPC rows and the extended row indices, and select each slot. -/
def selectRows (verified_rows : List Nat) (dht_rows rpc_rows : List (Option Bytes))
    (extended_rows : Nat) : List (Option Bytes) :=
  ((dht_rows.zip rpc_rows).zip (List.range extended_rows)).map
    (fun p => selectRow verified_rows p.2 p.1.1 p.1.2)

/-- The fallback retrieval of `process_block` (src/app_client.rs:237-245): if
the fallback source is disabled, every row slot is absent (`None`) and no
fallback call is made; otherwise `rpc::get_kate_rows` is called once with the
DHT-missing rows.  The second component counts the fallback calls issued. -/
def rpcFetch (cfg : AppClientConfig)
    (getKateRows : List Nat → Except String (List (Option Bytes)))
    (dht_rows_len : Nat) (dht_missing_rows : List Nat) :
    Except String (List (Option Bytes)) × Nat :=
  if cfg.disable_rpc then (.ok (List.replicate dht_rows_len none), 0)
  else (getKateRows dht_missing_rows, 1)

/-- The splice of the reconstructed rows into the selected row array
(src/app_client.rs:307-310): `rows[i] = Some(row)` for each reconstructed
`(row_index, row)`. -/
def spliceRows (rows : List (Option Bytes)) (dht_rows : List (Nat × Bytes)) :
    List (Option Bytes) :=
  dht_rows.foldl (fun acc p => acc.set p.1 (some p.2)) rows

/-- The observable outcome of one `process_block` invocation: the decoded
application data (or the error), the number of fallback (RPC) retrieval calls
issued, and the argument of the reconstruction call when one was made
(`none` when reconstruction was never invoked). -/
structure PBResult where
  result : Except String (List Bytes)
  rpcCalls : Nat
  reconArg : Option (List Nat)
deriving Repr

/-- `process_block` (src/app_client.rs:197-326), with the external calls as
oracles: `appRows` is `app_specific_rows lookup dimensions app_id`,
`fetchRows` is `network_client.fetch_rows_from_dht`, `verifyEq` is
`commitments::verify_equality` (partially applied to the fixed commitments,
lookup, dimensions and app id), `getKateRows` is `rpc::get_kate_rows` keyed by
the block header hash, `reconstructRows` abstracts
`reconstruct_rows_from_dht`, and `decodeApp` is `decode_app_extrinsics`.
`extendedRows` and `cols` are `dimensions.extended_rows()` and
`dimensions.cols()`.  The result records the decoded (and persisted) data,
the fallback call count and the reconstruction argument. -/
def process_block (cfg : AppClientConfig) (extendedRows cols : Nat)
    (appRows : List Nat)
    (fetchRows : List Nat → List (Option Bytes))
    (verifyEq : List (Option Bytes) → Except String (List Nat × List Nat))
    (getKateRows : List Nat → Except String (List (Option Bytes)))
    (reconstructRows : List Nat → Except String (List (Nat × Bytes)))
    (decodeApp : List DataCell → Except String (List Bytes)) : PBResult :=
  let dht_rows := fetchRows appRows
  match verifyEq dht_rows with
  | .error e => ⟨.error e, 0, none⟩
  | .ok (dht_verified_rows, dht_missing_rows) =>
    let rpcRes := rpcFetch cfg getKateRows dht_rows.length dht_missing_rows
    match rpcRes.1 with
    | .error e => ⟨.error e, rpcRes.2, none⟩
    | .ok rpc_rows =>
      match verifyEq rpc_rows with
      | .error e => ⟨.error e, rpcRes.2, none⟩
      | .ok (rpc_verified_rows, missing_rows) =>
        let missing_rows := retainMissing missing_rows dht_verified_rows
        let verified_rows := dht_verified_rows ++ rpc_verified_rows
        let rows := selectRows verified_rows dht_rows rpc_rows extendedRows
        if missing_rows.length * cols > cfg.threshold then
          ⟨.error "Too many cells are missing", rpcRes.2, none⟩
        else
          match reconstructRows missing_rows with
          | .error e => ⟨.error e, rpcRes.2, some missing_rows⟩
          | .ok recon_rows =>
            let rows := spliceRows rows recon_rows
            match decodeApp (data_cells_from_rows rows) with
            | .error e => ⟨.error e, rpcRes.2, some missing_rows⟩
            | .ok data => ⟨.ok data, rpcRes.2, some missing_rows⟩

/-- The entry persisted by `store_encoded_data_in_db` (src/app_client.rs:319):
the decoded buffers under the `app_id:block_number` key; nothing is persisted
when the pipeline errors out. -/
def persistedEntry (app_id block_number : Nat) (res : PBResult) :
    Option ((Nat × Nat) × List Bytes) :=
  match res.result with
  | .ok data => some ((app_id, block_number), data)
  | .error _ => none

/-! Concrete sample inputs used to exercise the theorems below on closed
instances. -/

/-- A concrete chunk of `CHUNK_SIZE` bytes. -/
def sampleChunk : Bytes := List.replicate CHUNK_SIZE 7

/-- A concrete data cell at position (0, 0). -/
def sampleDataCell : DataCell := ⟨⟨0, 0⟩, sampleChunk⟩

/-- A concrete retrieval oracle that returns no cells and reports every
requested position as unfetched. -/
def emptyFetch (positions : List Position) : List Cell × List Position :=
  ([], positions)

/-- A concrete cell-verification oracle that verifies every fetched cell. -/
def allVerify (cells : List Cell) : Except String (List Position × List Position) :=
  .ok (cells.map (fun cell => cell.position), [])

/-- A concrete column-reconstruction oracle producing no columns. -/
def emptyReconstruct (_ : List Cell) : Except String (Nat → Option (List Bytes)) :=
  .ok (fun _ => none)

/-- A concrete whole-row retrieval oracle that returns one verified sample row
(for extended dimensions 2 × 1). -/
def sampleFetchRows (_ : List Nat) : List (Option Bytes) :=
  [some sampleChunk, none]

/-- A concrete row-verification oracle for the 2 × 1 sample: row 0 verifies
when present, row 1 is always missing. -/
def sampleVerifyEq (rows : List (Option Bytes)) :
    Except String (List Nat × List Nat) :=
  if (rows.getD 0 none).isSome then .ok ([0], [1]) else .ok ([], [0, 1])

/-- A concrete fallback-row oracle that reports every requested row absent. -/
def sampleKateRows (rows : List Nat) : Except String (List (Option Bytes)) :=
  .ok (rows.map (fun _ => none))

/-- A concrete reconstruction oracle that recovers no rows. -/
def sampleReconstructRows (_ : List Nat) : Except String (List (Nat × Bytes)) :=
  .ok []

/-- A concrete decoding oracle returning the data of the cells it is given. -/
def sampleDecodeApp (cells : List DataCell) : Except String (List Bytes) :=
  .ok (cells.map (fun cell => cell.data))

/-! ### Helper lemmas -/

theorem mapM_except_ok_of_forall {α β : Type} (f : α → Except String β)
    (g : α → β) : ∀ l : List α, (∀ a ∈ l, f a = .ok (g a)) → l.mapM f = .ok (l.map g) := by
  intro l
  induction l with
  | nil => intro _; rfl
  | cons a l ih =>
    intro h
    rw [List.mapM_cons, h a (List.mem_cons_self a l),
      ih (fun b hb => h b (List.mem_cons_of_mem a hb))]
    rfl

theorem mapM_except_error_of_exists {α β : Type} (f : α → Except String β)
    (e : String) : ∀ l : List α, (∀ a ∈ l, f a = .error e ∨ ∃ b, f a = .ok b) →
    (∃ a ∈ l, f a = .error e) → l.mapM f = .error e := by
  intro l
  induction l with
  | nil => intro _ hex; simp at hex
  | cons a l ih =>
    intro hall hex
    rcases hall a (List.mem_cons_self a l) with ha | ⟨b, hb⟩
    · rw [List.mapM_cons, ha]; rfl
    · rw [List.mapM_cons, hb]
      have hex2 : ∃ x ∈ l, f x = .error e := by
        rcases hex with ⟨x, hx, hfx⟩
        rcases List.mem_cons.mp hx with rfl | hx2
        · rw [hfx] at hb; cases hb
        · exact ⟨x, hx2, hfx⟩
      rw [ih (fun c hc => hall c (List.mem_cons_of_mem a hc)) hex2]
      rfl

theorem mapM_except_ok_forall {α β : Type} (f : α → Except String β) :
    ∀ (l : List α) (res : List β), l.mapM f = .ok res → ∀ a ∈ l, ∃ b, f a = .ok b := by
  intro l
  induction l with
  | nil => intro res _ a ha; simp at ha
  | cons a l ih =>
    intro res h b hb
    rw [List.mapM_cons] at h
    cases hfa : f a with
    | error e => rw [hfa] at h; cases h
    | ok c =>
      rw [hfa] at h
      cases hrest : l.mapM f with
      | error e =>
        rw [hrest] at h
        cases h
      | ok cs =>
        rcases List.mem_cons.mp hb with rfl | hb2
        · exact ⟨c, hfa⟩
        · exact ih cs hrest b hb2

theorem chunksExact_eq (n : Nat) (l : Bytes) :
    chunksExact n l = (List.range (l.length / n)).map
      (fun i => (l.drop (i * n)).take n) := by
  match n with
  | 0 => simp [chunksExact]
  | m + 1 =>
    rw [chunksExact]
    by_cases h : l.length < m + 1
    · rw [dif_pos h, Nat.div_eq_of_lt h]
      simp
    · rw [dif_neg h, chunksExact_eq (m + 1) (l.drop (m + 1))]
      have hdiv : l.length / (m + 1) = (l.length - (m + 1)) / (m + 1) + 1 :=
        Nat.div_eq_sub_div (Nat.succ_pos m) (Nat.le_of_not_lt h)
      rw [List.length_drop, hdiv, List.range_succ_eq_map]
      simp only [List.map_cons, List.map_map]
      congr 1
      · simp
      · apply List.map_congr_left
        intro i _
        simp only [Function.comp_apply]
        rw [List.drop_drop, Nat.succ_mul]
        ring_nf
termination_by l.length
decreasing_by
  simp only [List.length_drop]
  omega

theorem chunksExact_flatten (n : Nat) (l : Bytes) :
    (chunksExact n l).flatten = l.take (l.length / n * n) := by
  match n with
  | 0 => simp [chunksExact]
  | m + 1 =>
    rw [chunksExact]
    by_cases h : l.length < m + 1
    · rw [dif_pos h, Nat.div_eq_of_lt h]
      simp
    · rw [dif_neg h]
      simp only [List.flatten_cons]
      rw [chunksExact_flatten (m + 1) (l.drop (m + 1))]
      have hdiv : l.length / (m + 1) = (l.length - (m + 1)) / (m + 1) + 1 :=
        Nat.div_eq_sub_div (Nat.succ_pos m) (Nat.le_of_not_lt h)
      rw [List.length_drop, hdiv]
      have harith : ((l.length - (m + 1)) / (m + 1) + 1) * (m + 1) =
          (m + 1) + (l.length - (m + 1)) / (m + 1) * (m + 1) := by
        ring
      rw [harith]
      conv_rhs => rw [List.take_add]
termination_by l.length
decreasing_by
  simp only [List.length_drop]
  omega

theorem enum_map_range {α : Type} (f : Nat → α) (k : Nat) :
    ((List.range k).map f).enum = (List.range k).map (fun i => (i, f i)) := by
  apply List.ext_getElem
  · simp
  · intro i h1 h2
    simp [List.getElem_enum]

/-! ### Claim theorems -/

/-- C4: `fetch_verified` returns the pair of the cells fetched from the
distributed-cache source whose positions passed commitment verification and
the still-missing positions, the latter being exactly the union of the
positions never returned by the source and the positions returned but failing
verification; when the verifier succeeds structurally, a position failing
verification is not an error. -/
theorem fetch_verified_partition
    (fetchCells : List Position → List Cell × List Position)
    (verifyCells : List Cell → Except String (List Position × List Position))
    (positions verified unverified : List Position)
    (hv : verifyCells (fetchCells positions).1 = .ok (verified, unverified)) :
    fetch_verified fetchCells verifyCells positions =
      .ok ((fetchCells positions).1.filter (fun cell => verified.contains cell.position),
        (fetchCells positions).2 ++ unverified) ∧
    (∀ cell, cell ∈ (fetchCells positions).1.filter
        (fun cell => verified.contains cell.position) ↔
      cell ∈ (fetchCells positions).1 ∧ cell.position ∈ verified) ∧
    (∀ p, p ∈ (fetchCells positions).2 ++ unverified ↔
      p ∈ (fetchCells positions).2 ∨ p ∈ unverified) := by
  refine ⟨?_, ?_, ?_⟩
  · simp only [fetch_verified]
    rw [hv]
  · intro cell
    simp [List.mem_filter]
  · intro p
    simp [List.mem_append]

/-- Witness for C4 at a concrete input: the source returns nothing, the
verifier succeeds, and the requested position is routed to the missing set. -/
theorem fetch_verified_partition_witness :
    fetch_verified emptyFetch allVerify [⟨0, 0⟩] = .ok ([], [⟨0, 0⟩]) :=
  (fetch_verified_partition emptyFetch allVerify [⟨0, 0⟩] [] [] rfl).1

/-- C5: `reconstruct_rows_from_dht` called with an empty missing-row list (and
more generally whenever the expansion of the requested rows into
extended-matrix positions is empty) returns an empty result immediately,
issuing zero retrieval calls. -/
theorem reconstruct_rows_from_dht_empty (cols : Nat)
    (fetchCells : List Position → List Cell × List Position)
    (verifyCells : List Cell → Except String (List Position × List Position))
    (columnsPositions : List Position → List Position)
    (reconstructColumns : List Cell → Except String (Nat → Option (List Bytes)))
    (missing_rows : List Nat)
    (h : missing_rows = [] ∨ extended_rows_positions cols missing_rows = []) :
    reconstruct_rows_from_dht cols fetchCells verifyCells columnsPositions
      reconstructColumns missing_rows = (.ok [], 0) := by
  have hemp : extended_rows_positions cols missing_rows = [] := by
    rcases h with rfl | h
    · rfl
    · exact h
  simp [reconstruct_rows_from_dht, hemp]

/-- Witness for C5 at a concrete input: an empty missing-row list yields the
empty result and zero retrieval rounds. -/
theorem reconstruct_rows_from_dht_empty_witness :
    reconstruct_rows_from_dht 4 emptyFetch allVerify (fun p => p)
      emptyReconstruct [] = (.ok [], 0) :=
  reconstruct_rows_from_dht_empty 4 emptyFetch allVerify (fun p => p)
    emptyReconstruct [] (Or.inl rfl)

/-- C6: after the fallback verification, the retained missing-row set excludes
every row already verified from the DHT; combined with the verifier's contract
that its returned missing rows are disjoint from its returned verified rows,
every row handed to reconstruction is verified by neither source — and
whenever `process_block` invokes reconstruction, the argument it passes is
exactly that retained missing set. -/
theorem retainMissing_excludes (missing_rows dht_verified_rows rpc_verified_rows : List Nat)
    (hcontract : ∀ row ∈ missing_rows, row ∉ rpc_verified_rows) :
    (∀ row ∈ retainMissing missing_rows dht_verified_rows,
      row ∉ dht_verified_rows ∧ row ∉ rpc_verified_rows) ∧
    (∀ (cfg : AppClientConfig) (extendedRows cols : Nat) (appRows : List Nat)
      (fetchRows : List Nat → List (Option Bytes))
      (verifyEq : List (Option Bytes) → Except String (List Nat × List Nat))
      (getKateRows : List Nat → Except String (List (Option Bytes)))
      (reconstructRows : List Nat → Except String (List (Nat × Bytes)))
      (decodeApp : List DataCell → Except String (List Bytes))
      (dht_missing_rows : List Nat) (rpc_rows : List (Option Bytes)) (l : List Nat),
      verifyEq (fetchRows appRows) = .ok (dht_verified_rows, dht_missing_rows) →
      (rpcFetch cfg getKateRows (fetchRows appRows).length dht_missing_rows).1 =
        .ok rpc_rows →
      verifyEq rpc_rows = .ok (rpc_verified_rows, missing_rows) →
      (process_block cfg extendedRows cols appRows fetchRows verifyEq getKateRows
        reconstructRows decodeApp).reconArg = some l →
      l = retainMissing missing_rows dht_verified_rows) := by
  constructor
  · intro row hrow
    simp only [retainMissing, List.mem_filter] at hrow
    rcases hrow with ⟨hmem, hnot⟩
    refine ⟨?_, hcontract row hmem⟩
    simpa using hnot
  · intro cfg extendedRows cols appRows fetchRows verifyEq getKateRows reconstructRows
      decodeApp dht_missing_rows rpc_rows l h1 h2 h3 h4
    simp only [process_block, h1, h2, h3] at h4
    by_cases hth :
        (retainMissing missing_rows dht_verified_rows).length * cols > cfg.threshold
    · rw [if_pos hth] at h4
      cases h4
    · rw [if_neg hth] at h4
      split at h4
      · simpa using h4.symm
      · split at h4
        · simpa using h4.symm
        · simpa using h4.symm

/-- Witness for C6 at a concrete input: row 2 is missing, row 1 is
DHT-verified, nothing is RPC-verified; the retained row 2 is in neither
verified set. -/
theorem retainMissing_excludes_witness :
    (2 : Nat) ∉ ([1] : List Nat) ∧ (2 : Nat) ∉ ([] : List Nat) :=
  (retainMissing_excludes [2] [1] [] (by decide)).1 2 (by decide)

/-- `selectRow` keeps the preferred available row exactly when the row index
is in the verified set. -/
theorem selectRow_eq (verified_rows : List Nat) (row_index : Nat)
    (dht_row rpc_row : Option Bytes) :
    selectRow verified_rows row_index dht_row rpc_row =
      if verified_rows.contains row_index then dht_row.or rpc_row else none := by
  unfold selectRow
  cases h : dht_row.or rpc_row with
  | none => cases hc : verified_rows.contains row_index <;> simp
  | some b => cases hc : verified_rows.contains row_index <;> simp [hc]

/-- Pointwise characterization of the row selection: slot `i` of the selected
row array is `selectRow` applied to the DHT and RPC rows at index `i`. -/
theorem selectRows_getElem (verified_rows : List Nat) (dht_rows rpc_rows : List (Option Bytes))
    (n i : Nat) (hd : i < dht_rows.length) (hr : i < rpc_rows.length) (hn : i < n) :
    (selectRows verified_rows dht_rows rpc_rows n)[i]? =
      some (selectRow verified_rows i (dht_rows[i]) (rpc_rows[i])) := by
  have hlen : i < (selectRows verified_rows dht_rows rpc_rows n).length := by
    simp only [selectRows, List.length_map, List.length_zip, List.length_range]
    omega
  rw [List.getElem?_eq_getElem hlen]
  congr 1
  simp [selectRows, List.getElem_zip]

/-- C1: a row index appears as `Some` in the final selected row array exactly
when it belongs to the union of the DHT-verified and RPC-verified row sets
(given the verifier's contract that a verified row was present in the
corresponding retrieval); in that case the primary (DHT) row is preferred and
the fallback (RPC) row is used otherwise, and a row verified by neither
source is `None` even when raw bytes were retrieved for it. -/
theorem selectRows_verified (dht_verified_rows rpc_verified_rows : List Nat)
    (dht_rows rpc_rows : List (Option Bytes)) (n i : Nat)
    (hd : dht_rows.length = n) (hr : rpc_rows.length = n) (hi : i < n)
    (hdv : ∀ j ∈ dht_verified_rows, (dht_rows.getD j none).isSome)
    (hrv : ∀ j ∈ rpc_verified_rows, (rpc_rows.getD j none).isSome) :
    (selectRows (dht_verified_rows ++ rpc_verified_rows) dht_rows rpc_rows n)[i]? =
      some (selectRow (dht_verified_rows ++ rpc_verified_rows) i
        (dht_rows.getD i none) (rpc_rows.getD i none)) ∧
    ((selectRow (dht_verified_rows ++ rpc_verified_rows) i
        (dht_rows.getD i none) (rpc_rows.getD i none)).isSome ↔
      i ∈ dht_verified_rows ∨ i ∈ rpc_verified_rows) ∧
    ((i ∈ dht_verified_rows ∨ i ∈ rpc_verified_rows) →
      selectRow (dht_verified_rows ++ rpc_verified_rows) i
        (dht_rows.getD i none) (rpc_rows.getD i none) =
        (dht_rows.getD i none).or (rpc_rows.getD i none)) ∧
    (i ∉ dht_verified_rows → i ∉ rpc_verified_rows →
      selectRow (dht_verified_rows ++ rpc_verified_rows) i
        (dht_rows.getD i none) (rpc_rows.getD i none) = none) := by
  have hd2 : i < dht_rows.length := by omega
  have hr2 : i < rpc_rows.length := by omega
  have hgd : dht_rows.getD i none = dht_rows[i] := List.getD_eq_getElem dht_rows none hd2
  have hgr : rpc_rows.getD i none = rpc_rows[i] := List.getD_eq_getElem rpc_rows none hr2
  have hcont : (dht_verified_rows ++ rpc_verified_rows).contains i = true ↔
      (i ∈ dht_verified_rows ∨ i ∈ rpc_verified_rows) := by
    simp [List.mem_append]
  refine ⟨?_, ?_, ?_, ?_⟩
  · rw [hgd, hgr]
    exact selectRows_getElem (dht_verified_rows ++ rpc_verified_rows) dht_rows rpc_rows n i
      hd2 hr2 hi
  · rw [selectRow_eq]
    by_cases hmem : i ∈ dht_verified_rows ∨ i ∈ rpc_verified_rows
    · rw [if_pos (hcont.mpr hmem)]
      simp only [hmem, iff_true]
      rcases hmem with hmem | hmem
      · have hs := hdv i hmem
        cases hdht : dht_rows.getD i none with
        | none => rw [hdht] at hs; simp at hs
        | some b => simp [hdht]
      · cases hdht : dht_rows.getD i none with
        | some b => simp [hdht]
        | none =>
          have hs := hrv i hmem
          cases hrpc : rpc_rows.getD i none with
          | none => rw [hrpc] at hs; simp at hs
          | some b => simp [hdht, hrpc]
    · rw [if_neg (fun hc => hmem (hcont.mp hc))]
      simp [hmem]
  · intro hmem
    rw [selectRow_eq, if_pos (hcont.mpr hmem)]
  · intro h1 h2
    have hmem : ¬(i ∈ dht_verified_rows ∨ i ∈ rpc_verified_rows) := by
      rintro (h | h)
      · exact h1 h
      · exact h2 h
    rw [selectRow_eq, if_neg (fun hc => hmem (hcont.mp hc))]

/-- Witness for C1 at a concrete input: a 2-row block where only row 0 is
DHT-verified; slot 0 of the selection holds the DHT row. -/
theorem selectRows_verified_witness :
    (selectRows ([0] ++ []) [some sampleChunk, none] [none, none] 2)[0]? =
      some (selectRow ([0] ++ []) 0
        (([some sampleChunk, none] : List (Option Bytes)).getD 0 none)
        (([none, none] : List (Option Bytes)).getD 0 none)) :=
  (selectRows_verified [0] [] [some sampleChunk, none] [none, none] 2 0 rfl rfl
    (by decide) (by decide) (by decide)).1

/-- C7: the reconstructed data cell for an originally unfetched position is
the lookup of the reconstructed-column map at the position's column and, in
that de-extended column, at index `row / EXTENSION_FACTOR` (integer
division); a successful cell carries the original position unchanged, and a
failed lookup makes the reconstruction step fail with the hard error
"Data cell not found". -/
theorem data_cell_lookup (reconstructed : Nat → Option (List Bytes))
    (unfetched : List Position) :
    (∀ position d, data_cell position reconstructed = .ok d ↔
      ((reconstructed position.col).bind
          (fun column => column[position.row / EXTENSION_FACTOR]?) = some d.data ∧
        d.position = position)) ∧
    (∀ position, data_cell position reconstructed = .error "Data cell not found" ↔
      (reconstructed position.col).bind
        (fun column => column[position.row / EXTENSION_FACTOR]?) = none) ∧
    ((∃ position ∈ unfetched, (reconstructed position.col).bind
        (fun column => column[position.row / EXTENSION_FACTOR]?) = none) →
      reconstructCells unfetched reconstructed = .error "Data cell not found") := by
  have hok : ∀ position d, data_cell position reconstructed = .ok d ↔
      ((reconstructed position.col).bind
          (fun column => column[position.row / EXTENSION_FACTOR]?) = some d.data ∧
        d.position = position) := by
    intro position d
    unfold data_cell
    cases hl : (reconstructed position.col).bind
        (fun column => column[position.row / EXTENSION_FACTOR]?) with
    | none => simp
    | some x =>
      simp only [Option.some.injEq]
      constructor
      · intro h
        cases h
        exact ⟨rfl, rfl⟩
      · rintro ⟨hd, hp⟩
        cases d
        simp_all
  have herr : ∀ position, data_cell position reconstructed = .error "Data cell not found" ↔
      (reconstructed position.col).bind
        (fun column => column[position.row / EXTENSION_FACTOR]?) = none := by
    intro position
    unfold data_cell
    cases hl : (reconstructed position.col).bind
        (fun column => column[position.row / EXTENSION_FACTOR]?) with
    | none => simp
    | some x => simp
  refine ⟨hok, herr, ?_⟩
  rintro ⟨position, hmem, hnone⟩
  apply mapM_except_error_of_exists
  · intro p _
    cases hl : (reconstructed p.col).bind
        (fun column => column[p.row / EXTENSION_FACTOR]?) with
    | none => exact Or.inl ((herr p).mpr hl)
    | some x =>
      refine Or.inr ⟨⟨p, x⟩, ?_⟩
      unfold data_cell
      rw [hl]
  · exact ⟨position, hmem, (herr position).mpr hnone⟩

/-- Witness for C7 at a concrete input: an empty reconstructed-column map
makes the reconstruction of one unfetched position fail with the hard
error. -/
theorem data_cell_lookup_witness :
    reconstructCells [⟨0, 0⟩] (fun _ => none) = .error "Data cell not found" :=
  (data_cell_lookup (fun _ => none) [⟨0, 0⟩]).2.2 ⟨⟨0, 0⟩, by simp, rfl⟩

/-- C3: the merged fetched-and-reconstructed data cells are sorted by
`(row, col)` ascending; each requested missing row is returned as the
concatenation, in column order, of the chunks of all data cells with that row
index, and a concatenated length different from `cols * CHUNK_SIZE` makes the
assembly fail with "Row size is not valid after reconstruction" instead of
returning that row. -/
theorem assembleRows_spec (cols : Nat) (data_cells : List DataCell)
    (missing_rows : List Nat) :
    ((sortCells data_cells).Perm data_cells ∧
      List.Sorted cellLe (sortCells data_cells)) ∧
    (∀ row : Nat,
      List.Pairwise (fun a b => a.position.col ≤ b.position.col)
        ((sortCells data_cells).filter (fun cell => cell.position.row == row)) ∧
      ((sortCells data_cells).filter (fun cell => cell.position.row == row)).Perm
        (data_cells.filter (fun cell => cell.position.row == row))) ∧
    (∀ res, assembleRows cols data_cells missing_rows = .ok res →
      res = missing_rows.map (fun row => (row, rowData (sortCells data_cells) row)) ∧
      ∀ row ∈ missing_rows,
        (rowData (sortCells data_cells) row).length = cols * CHUNK_SIZE) ∧
    ((∃ row ∈ missing_rows,
        (rowData (sortCells data_cells) row).length ≠ cols * CHUNK_SIZE) →
      assembleRows cols data_cells missing_rows =
        .error "Row size is not valid after reconstruction") := by
  have hperm : (sortCells data_cells).Perm data_cells :=
    List.perm_insertionSort cellLe data_cells
  have hsorted : List.Sorted cellLe (sortCells data_cells) :=
    List.sorted_insertionSort cellLe data_cells
  refine ⟨⟨hperm, hsorted⟩, ?_, ?_, ?_⟩
  · intro row
    constructor
    · have hp : ((sortCells data_cells).filter
          (fun cell => cell.position.row == row)).Pairwise cellLe :=
        List.Pairwise.filter _ hsorted
      refine List.Pairwise.imp_of_mem ?_ hp
      intro a b ha hb hab
      have ha2 : a.position.row = row := by
        simpa using List.of_mem_filter ha
      have hb2 : b.position.row = row := by
        simpa using List.of_mem_filter hb
      rcases hab with hlt | ⟨_, hle⟩
      · omega
      · exact hle
    · exact hperm.filter (fun cell => cell.position.row == row)
  · intro res hok
    have hall : ∀ row ∈ missing_rows, assembleRow cols (sortCells data_cells) row =
        .ok (row, rowData (sortCells data_cells) row) := by
      intro row hrow
      obtain ⟨b, hb⟩ := mapM_except_ok_forall _ missing_rows res hok row hrow
      unfold assembleRow at hb ⊢
      by_cases hlen : (rowData (sortCells data_cells) row).length = cols * CHUNK_SIZE
      · rw [if_neg (by omega)]
      · rw [if_pos (by omega)] at hb
        cases hb
    have hlens : ∀ row ∈ missing_rows,
        (rowData (sortCells data_cells) row).length = cols * CHUNK_SIZE := by
      intro row hrow
      have hb := hall row hrow
      unfold assembleRow at hb
      by_cases hlen : (rowData (sortCells data_cells) row).length = cols * CHUNK_SIZE
      · exact hlen
      · rw [if_pos (by omega)] at hb
        cases hb
    refine ⟨?_, hlens⟩
    have hmapm := mapM_except_ok_of_forall (assembleRow cols (sortCells data_cells))
      (fun row => (row, rowData (sortCells data_cells) row)) missing_rows hall
    unfold assembleRows at hok
    rw [hmapm] at hok
    cases hok
    rfl
  · rintro ⟨row, hrow, hlen⟩
    unfold assembleRows
    apply mapM_except_error_of_exists
    · intro r _
      unfold assembleRow
      by_cases hl : (rowData (sortCells data_cells) r).length = cols * CHUNK_SIZE
      · rw [if_neg (by omega)]
        exact Or.inr ⟨_, rfl⟩
      · rw [if_pos (by omega)]
        exact Or.inl rfl
    · refine ⟨row, hrow, ?_⟩
      unfold assembleRow
      rw [if_pos (by omega)]

/-- Witness for C3 at a concrete input: a single cell of one chunk cannot fill
a two-column row, so the assembly errors out with the row-size message. -/
theorem assembleRows_spec_witness :
    assembleRows 2 [sampleDataCell] [0] =
      .error "Row size is not valid after reconstruction" :=
  (assembleRows_spec 2 [sampleDataCell] [0]).2.2.2 ⟨0, by decide, by decide⟩

/-- C2: when the number of missing rows times the column count strictly
exceeds the configured threshold, `process_block` fails with
"Too many cells are missing" and the reconstruction is never invoked (its
recorded argument stays `none`). -/
theorem process_block_threshold (cfg : AppClientConfig) (extendedRows cols : Nat)
    (appRows : List Nat)
    (fetchRows : List Nat → List (Option Bytes))
    (verifyEq : List (Option Bytes) → Except String (List Nat × List Nat))
    (getKateRows : List Nat → Except String (List (Option Bytes)))
    (reconstructRows : List Nat → Except String (List (Nat × Bytes)))
    (decodeApp : List DataCell → Except String (List Bytes))
    (dht_verified_rows dht_missing_rows rpc_verified_rows missing0 : List Nat)
    (rpc_rows : List (Option Bytes))
    (h1 : verifyEq (fetchRows appRows) = .ok (dht_verified_rows, dht_missing_rows))
    (h2 : (rpcFetch cfg getKateRows (fetchRows appRows).length dht_missing_rows).1 =
      .ok rpc_rows)
    (h3 : verifyEq rpc_rows = .ok (rpc_verified_rows, missing0))
    (h4 : (retainMissing missing0 dht_verified_rows).length * cols > cfg.threshold) :
    (process_block cfg extendedRows cols appRows fetchRows verifyEq getKateRows
      reconstructRows decodeApp).result = .error "Too many cells are missing" ∧
    (process_block cfg extendedRows cols appRows fetchRows verifyEq getKateRows
      reconstructRows decodeApp).reconArg = none := by
  have heq : process_block cfg extendedRows cols appRows fetchRows verifyEq getKateRows
      reconstructRows decodeApp =
      ⟨.error "Too many cells are missing",
        (rpcFetch cfg getKateRows (fetchRows appRows).length dht_missing_rows).2, none⟩ := by
    simp only [process_block, h1, h2, h3]
    rw [if_pos h4]
  rw [heq]
  exact ⟨rfl, rfl⟩

/-- Witness for C2 at a concrete input: a 2-row, 1-column block where row 1
stays missing and the threshold is 0, so `1 * 1 > 0` trips the guard. -/
theorem process_block_threshold_witness :
    (process_block ⟨true, 0⟩ 2 1 [0, 1] sampleFetchRows sampleVerifyEq sampleKateRows
      sampleReconstructRows sampleDecodeApp).result = .error "Too many cells are missing" :=
  (process_block_threshold ⟨true, 0⟩ 2 1 [0, 1] sampleFetchRows sampleVerifyEq
    sampleKateRows sampleReconstructRows sampleDecodeApp [0] [1] [] [0, 1]
    (List.replicate 2 none) rfl rfl rfl (by decide)).1

/-- C8: when the fallback source is administratively disabled, `process_block`
issues no fallback retrieval call, and the fallback row list consists entirely
of `None` entries, one per primary-source row slot. -/
theorem process_block_disable_rpc (cfg : AppClientConfig) (extendedRows cols : Nat)
    (appRows : List Nat)
    (fetchRows : List Nat → List (Option Bytes))
    (verifyEq : List (Option Bytes) → Except String (List Nat × List Nat))
    (getKateRows : List Nat → Except String (List (Option Bytes)))
    (reconstructRows : List Nat → Except String (List (Nat × Bytes)))
    (decodeApp : List DataCell → Except String (List Bytes))
    (dht_rows_len : Nat) (dht_missing_rows : List Nat)
    (h : cfg.disable_rpc = true) :
    rpcFetch cfg getKateRows dht_rows_len dht_missing_rows =
      (.ok (List.replicate dht_rows_len none), 0) ∧
    (process_block cfg extendedRows cols appRows fetchRows verifyEq getKateRows
      reconstructRows decodeApp).rpcCalls = 0 := by
  constructor
  · simp [rpcFetch, h]
  · simp only [process_block, rpcFetch, h, if_true]
    split
    · rfl
    · split
      · rfl
      · split
        · rfl
        · split
          · rfl
          · split <;> rfl

/-- Witness for C8 at a concrete input: with the fallback disabled, the
fallback row list for two primary slots is `[none, none]` and zero fallback
calls are made. -/
theorem process_block_disable_rpc_witness :
    rpcFetch ⟨true, 4⟩ sampleKateRows 2 [1] = (.ok [none, none], 0) :=
  (process_block_disable_rpc ⟨true, 4⟩ 2 1 [0, 1] sampleFetchRows sampleVerifyEq
    sampleKateRows sampleReconstructRows sampleDecodeApp 2 [1] rfl).1

/-- C9: the pipeline is deterministic — two invocations of `process_block` on
identical block inputs and configuration, with retrieval, verification,
reconstruction and decoding sources that respond identically, produce the same
outcome and the same persisted entry. -/
theorem process_block_deterministic (cfg : AppClientConfig) (extendedRows cols : Nat)
    (appRows : List Nat)
    (fetchRows1 fetchRows2 : List Nat → List (Option Bytes))
    (verifyEq1 verifyEq2 : List (Option Bytes) → Except String (List Nat × List Nat))
    (getKateRows1 getKateRows2 : List Nat → Except String (List (Option Bytes)))
    (reconstructRows1 reconstructRows2 : List Nat → Except String (List (Nat × Bytes)))
    (decodeApp1 decodeApp2 : List DataCell → Except String (List Bytes))
    (app_id block_number : Nat)
    (hf : ∀ x, fetchRows1 x = fetchRows2 x)
    (hv : ∀ x, verifyEq1 x = verifyEq2 x)
    (hg : ∀ x, getKateRows1 x = getKateRows2 x)
    (hr : ∀ x, reconstructRows1 x = reconstructRows2 x)
    (hd : ∀ x, decodeApp1 x = decodeApp2 x) :
    process_block cfg extendedRows cols appRows fetchRows1 verifyEq1 getKateRows1
      reconstructRows1 decodeApp1 =
    process_block cfg extendedRows cols appRows fetchRows2 verifyEq2 getKateRows2
      reconstructRows2 decodeApp2 ∧
    persistedEntry app_id block_number (process_block cfg extendedRows cols appRows
      fetchRows1 verifyEq1 getKateRows1 reconstructRows1 decodeApp1) =
    persistedEntry app_id block_number (process_block cfg extendedRows cols appRows
      fetchRows2 verifyEq2 getKateRows2 reconstructRows2 decodeApp2) := by
  obtain rfl : fetchRows1 = fetchRows2 := funext hf
  obtain rfl : verifyEq1 = verifyEq2 := funext hv
  obtain rfl : getKateRows1 = getKateRows2 := funext hg
  obtain rfl : reconstructRows1 = reconstructRows2 := funext hr
  obtain rfl : decodeApp1 = decodeApp2 := funext hd
  exact ⟨rfl, rfl⟩

/-- C10: `data_cells_from_row` never fails, also on a row whose byte length is
not a multiple of `CHUNK_SIZE` (in the source its only failure mode is a
machine-integer index conversion, which cannot trigger on chunk slicing): it
produces exactly `length / CHUNK_SIZE` data cells with column indices
`0, 1, ...` in order, each carrying the corresponding full chunk, and the
trailing partial chunk is silently discarded rather than reported as an
error. -/
theorem data_cells_from_row_spec (row : Nat) (row_data : Bytes) :
    data_cells_from_row row row_data =
      (List.range (row_data.length / CHUNK_SIZE)).map
        (fun col => ⟨⟨row, col⟩, (row_data.drop (col * CHUNK_SIZE)).take CHUNK_SIZE⟩) ∧
    (data_cells_from_row row row_data).length = row_data.length / CHUNK_SIZE ∧
    (data_cells_from_row row row_data).flatMap (fun cell => cell.data) =
      row_data.take (row_data.length / CHUNK_SIZE * CHUNK_SIZE) := by
  have h1 : data_cells_from_row row row_data =
      (List.range (row_data.length / CHUNK_SIZE)).map
        (fun col => ⟨⟨row, col⟩, (row_data.drop (col * CHUNK_SIZE)).take CHUNK_SIZE⟩) := by
    unfold data_cells_from_row
    rw [chunksExact_eq, enum_map_range]
    simp [new_data_cell, List.map_map, Function.comp_def]
  refine ⟨h1, ?_, ?_⟩
  · rw [h1]
    simp
  · have h2 : (data_cells_from_row row row_data).flatMap (fun cell => cell.data) =
        (chunksExact CHUNK_SIZE row_data).flatten := by
      rw [h1, chunksExact_eq]
      simp [List.flatMap_def, List.map_map, Function.comp_def]
    rw [h2, chunksExact_flatten]

/-- Witness for C9 at a concrete input: the sample pipeline run twice with the
same deterministic sources persists the same entry. -/
theorem process_block_deterministic_witness :
    persistedEntry 1 5 (process_block ⟨true, 4⟩ 2 1 [0, 1] sampleFetchRows
      sampleVerifyEq sampleKateRows sampleReconstructRows sampleDecodeApp) =
    persistedEntry 1 5 (process_block ⟨true, 4⟩ 2 1 [0, 1] sampleFetchRows
      sampleVerifyEq sampleKateRows sampleReconstructRows sampleDecodeApp) :=
  (process_block_deterministic ⟨true, 4⟩ 2 1 [0, 1] sampleFetchRows sampleFetchRows
    sampleVerifyEq sampleVerifyEq sampleKateRows sampleKateRows sampleReconstructRows
    sampleReconstructRows sampleDecodeApp sampleDecodeApp 1 5
    (fun _ => rfl) (fun _ => rfl) (fun _ => rfl) (fun _ => rfl) (fun _ => rfl)).2

end AppClient
